import Mathlib

/-- Characters of a Rust string literal, modelled as a `List Char`. -/
def str (s : String) : List Char := s.data

/-- Substring containment, the model of Rust's `str::contains` for literal needles. -/
def containsSub (needle hay : List Char) : Bool := decide (needle <:+: hay)

/-- The model of `is_rate_limit_error` from `rate_limiter.rs`: a plain
case-sensitive substring check against five fixed needles. -/
def is_rate_limit_error (error_msg : List Char) : Bool :=
  containsSub (str "rate limit") error_msg ||
  containsSub (str "Rate limit") error_msg ||
  containsSub (str "429") error_msg ||
  containsSub (str "too many requests") error_msg ||
  containsSub (str "Too Many Requests") error_msg

/-! ## Safety classifier (`is_safe_command.rs`)

Commands are argv vectors: lists of strings, each string a `List Char`.
Rust's `char::is_whitespace` tests Unicode `White_Space`; we enumerate that set. -/

def rust_is_whitespace (c : Char) : Bool :=
  decide (c.toNat ∈ [0x09, 0x0A, 0x0B, 0x0C, 0x0D, 0x20, 0x85, 0xA0, 0x1680,
    0x2000, 0x2001, 0x2002, 0x2003, 0x2004, 0x2005, 0x2006, 0x2007, 0x2008, 0x2009, 0x200A,
    0x2028, 0x2029, 0x202F, 0x205F, 0x3000])

/-- Rust `str::trim`: strip leading and trailing whitespace. -/
def rustTrim (s : List Char) : List Char :=
  ((s.dropWhile rust_is_whitespace).reverse.dropWhile rust_is_whitespace).reverse

/-- The `DANGEROUS_CURL_HEADERS` constant from `is_safe_command.rs`. -/
def DANGEROUS_CURL_HEADERS : List (List Char) :=
  [str "authorization", str "proxy-authorization", str "cookie", str "set-cookie",
   str "x-api-key", str "x-auth-token", str "x-access-token", str "x-secret-key",
   str "api-key", str "apikey", str "auth", str "authentication", str "bearer",
   str "token", str "x-csrf-token", str "x-xsrf-token"]

/-- The model of `is_dangerous_header`: the part before the first colon, trimmed and
lower-cased, must not be in the dangerous set; a header without a colon is dangerous. -/
def is_dangerous_header (header_value : List Char) : Bool :=
  match header_value.findIdx? (fun c => c = ':') with
  | some colon_pos =>
    decide ((rustTrim (header_value.take colon_pos)).map Char.toLower ∈ DANGEROUS_CURL_HEADERS)
  | none => true

/-- One step of the `command.iter().enumerate().any(...)` closure inside
`is_safe_curl_command`: is the argument at position `idx` an unsafe curl option? -/
def curl_unsafe_at (command : List (List Char)) (idx : Nat) (arg : List Char) : Bool :=
  -- Data upload options
  (arg = str "-d" || (str "--data").isPrefixOf arg
    || arg = str "-F" || (str "--form").isPrefixOf arg
    || arg = str "-T" || (str "--upload-file").isPrefixOf arg)
  ||
  -- HTTP method: -X/--request followed by a method other than GET/HEAD
  ((arg = str "-X" || arg = str "--request") &&
    (match command.get? (idx + 1) with
     | some method =>
       decide (method.map Char.toUpper ≠ str "GET" ∧ method.map Char.toUpper ≠ str "HEAD")
     | none => false))
  ||
  -- Headers with dangerous content
  (if arg = str "-H" || arg = str "--header" then
     (match command.get? (idx + 1) with
      | some header => is_dangerous_header header
      | none => false)
   else if (str "--header=").isPrefixOf arg then
     is_dangerous_header (arg.drop 9)
   else false)
  ||
  -- Authentication options and the literal blocklist
  (arg = str "-u" || (str "--user").isPrefixOf arg
    || (str "--cookie").isPrefixOf arg
    || (str "--basic").isPrefixOf arg
    || (str "--digest").isPrefixOf arg
    || (str "--ntlm").isPrefixOf arg
    || (str "--negotiate").isPrefixOf arg
    || (str "--anyauth").isPrefixOf arg
    || (str "--proxy-").isPrefixOf arg
    || (str "--cert").isPrefixOf arg
    || (str "--key").isPrefixOf arg
    || (str "--pass").isPrefixOf arg
    || (str "--engine").isPrefixOf arg
    || (str "--cacert").isPrefixOf arg
    || (str "--capath").isPrefixOf arg
    || (str "--pinnedpubkey").isPrefixOf arg
    || decide (arg ∈ [str "-I", str "--head", str "--post301", str "--post302", str "--post303",
         str "-e", str "--referer", str "-A", str "--user-agent"]))

/-- The model of `is_safe_curl_command`: download-only curl invocations. -/
def is_safe_curl_command (command : List (List Char)) : Bool :=
  if command.isEmpty then false
  else if command.head? ≠ some (str "curl") then false
  else
    !((List.range command.length).any fun idx =>
      match command.get? idx with
      | some arg => curl_unsafe_at command idx arg
      | none => false)

/-- Matches `/^(\d+,)?\d+p$/`, the model of `is_valid_sed_n_arg`. -/
def is_valid_sed_n_arg (arg : Option (List Char)) : Bool :=
  match arg with
  | none => false
  | some s =>
    match s.getLast? with
    | some 'p' =>
      match (s.dropLast).splitOn ',' with
      | [num] => !num.isEmpty && num.all Char.isDigit
      | [a, b] => !a.isEmpty && !b.isEmpty && a.all Char.isDigit && b.all Char.isDigit
      | _ => false
    | _ => false

def UNSAFE_FIND_OPTIONS : List (List Char) :=
  [str "-exec", str "-execdir", str "-ok", str "-okdir", str "-delete",
   str "-fls", str "-fprint", str "-fprint0", str "-fprintf"]

def UNSAFE_RIPGREP_OPTIONS_WITH_ARGS : List (List Char) := [str "--pre", str "--hostname-bin"]

def UNSAFE_RIPGREP_OPTIONS_WITHOUT_ARGS : List (List Char) := [str "--search-zip", str "-z"]

/-- The model of `is_safe_to_call_with_exec`: hardcoded per-program allow rules. -/
def is_safe_to_call_with_exec (command : List (List Char)) : Bool :=
  match command.head? with
  | none => false
  | some cmd0 =>
    if decide (cmd0 ∈ [str "cat", str "cd", str "echo", str "false", str "grep", str "head",
        str "ls", str "nl", str "pwd", str "tail", str "true", str "wc", str "which"]) then
      true
    else if cmd0 = str "find" then
      !(command.any fun arg => decide (arg ∈ UNSAFE_FIND_OPTIONS))
    else if cmd0 = str "rg" then
      !(command.any fun arg =>
        decide (arg ∈ UNSAFE_RIPGREP_OPTIONS_WITHOUT_ARGS) ||
        UNSAFE_RIPGREP_OPTIONS_WITH_ARGS.any (fun opt =>
          arg = opt || (opt ++ str "=").isPrefixOf arg))
    else if cmd0 = str "curl" then is_safe_curl_command command
    else if cmd0 = str "git" then
      decide (command.get? 1 ∈ [some (str "branch"), some (str "status"), some (str "log"),
        some (str "diff"), some (str "show")])
    else if cmd0 = str "cargo" then decide (command.get? 1 = some (str "check"))
    else if cmd0 = str "sed" then
      decide (command.length = 3 ∨ command.length = 4) &&
      decide (command.get? 1 = some (str "-n")) &&
      is_valid_sed_n_arg (command.get? 2) &&
      (decide (command.length = 3) || decide ((command.get? 3).map List.isEmpty = some false))
    else false

/-- The pattern-matching closure shared by `is_known_safe_command` and
`is_command_trusted`: exact match, or a wildcard pattern ending in `"*"` with a
non-empty base that is a leading slice of the command. -/
def trusted_matches (trusted command : List (List Char)) : Bool :=
  if trusted = command then true
  else if 2 ≤ trusted.length ∧ trusted.getLast? = some (str "*") then
    (let base := trusted.take (trusted.length - 1)
     if ¬ base.isEmpty = true ∧ base.length ≤ command.length ∧ command.take base.length = base
     then true else false)
  else false

/-- The model of `is_command_trusted`. -/
def is_command_trusted (command : List (List Char)) (trusted_commands : List (List (List Char))) : Bool :=
  trusted_commands.any fun trusted => trusted_matches trusted command

/-- The model of `is_known_safe_command`.  The bash-script parser
(`crate::bash::try_parse_bash` / `try_parse_word_only_commands_sequence`) is repository
code that is not part of the sources here; it does not inspect `trusted_commands`, so it
is taken as an explicit parameter `parse` mapping a script to the word-only command
sequence when the script parses, and `none` otherwise. -/
def is_known_safe_command (parse : List Char → Option (List (List (List Char))))
    (command : List (List Char)) (trusted_commands : List (List (List Char))) : Bool :=
  if trusted_commands.any (fun trusted => trusted_matches trusted command) then true
  else if is_safe_to_call_with_exec command then true
  else
    match command with
    | [bash, flag, script] =>
      if bash = str "bash" && flag = str "-lc" then
        match parse script with
        | some all_commands =>
          !all_commands.isEmpty &&
          all_commands.all (fun cmd =>
            is_command_trusted cmd trusted_commands || is_safe_to_call_with_exec cmd)
        | none => false
      else false
    | _ => false

/-! ## Parallel dispatcher (`parallel_execution.rs`, `rate_limiter.rs`) -/

/-- JSON values as produced by the external `serde_json` crate; objects keep
their fields as an association list. -/
inductive Json where
  | null
  | bool (b : Bool)
  | num (n : Int)
  | str (s : List Char)
  | arr (items : List Json)
  | obj (fields : List (List Char × Json))

/-- Rust `Value::get(key)`: field lookup on an object, `None` otherwise. -/
def jsonGet (v : Json) (key : List Char) : Option Json :=
  match v with
  | Json.obj fields => fields.lookup key
  | _ => none

def jsonAsArray : Json → Option (List Json)
  | Json.arr xs => some xs
  | _ => none

def jsonAsStr : Json → Option (List Char)
  | Json.str s => some s
  | _ => none

/-- The option chain inside `is_safe_shell_command`:
`val.get("command").and_then(as_array).and_then(get(0)).and_then(as_str)`. -/
def json_command_head (v : Json) : Option (List Char) :=
  (((jsonGet v (str "command")).bind jsonAsArray).bind (fun xs => xs.head?)).bind jsonAsStr

/-- The model of `is_safe_shell_command`.  Parsing of the JSON `arguments`
string is done by the external `serde_json` crate, taken here as the explicit
parameter `parse` (`none` models a parse failure). -/
def is_safe_shell_command (parse : List Char → Option Json) (arguments : List Char) : Bool :=
  match parse arguments with
  | some val =>
    match json_command_head val with
    | some first_cmd =>
      decide (first_cmd ∈ [str "cat", str "ls", str "grep", str "head", str "tail",
        str "wc", str "find", str "pwd", str "echo"])
    | none => false
  | none => false

/-- The model of `is_safe_for_parallel`: which function names are read-only. -/
def is_safe_for_parallel (function_name : List Char) : Bool :=
  if decide (function_name ∈ [str "read_file", str "list_files", str "search_files",
      str "glob_files"]) then true
  else if (str "mcp__").isPrefixOf function_name then
    containsSub (str "_read") function_name ||
    containsSub (str "_get") function_name ||
    containsSub (str "_list") function_name ||
    containsSub (str "_search") function_name ||
    containsSub (str "_status") function_name
  else if decide (function_name ∈ [str "container.exec", str "apply_patch",
      str "update_plan"]) then false
  else if function_name = str "shell" then true
  else false

/-- Modelled from the spec: `ResponseItem` lives in `crate::models`, which is not
among the sources; the spec's ConversationItem union has a FunctionCall variant
`{ call_id, name, arguments }` (the code also carries an optional `id`), and the
dispatcher only distinguishes FunctionCall items from everything else, so all
other variants are collapsed into one constructor. -/
inductive ResponseItem where
  | FunctionCall (id : Option (List Char)) (name : List Char) (arguments : List Char)
      (call_id : List Char)
  | OtherVariant
deriving DecidableEq

def isFunctionCall : ResponseItem → Bool
  | ResponseItem.FunctionCall _ _ _ _ => true
  | _ => false

/-- `RateLimitConfig` from `rate_limiter.rs`.  The float field
`backoff_multiplier` is omitted: no claim depends on it and floating point is
outside the embedding. -/
structure RateLimitConfig where
  max_concurrent_calls : Nat
  min_delay_ms : Nat
  parallel_enabled : Bool
  max_retries : Nat
deriving DecidableEq

/-- The `Default` impl of `RateLimitConfig`. -/
def defaultRateLimitConfig : RateLimitConfig :=
  { max_concurrent_calls := 5, min_delay_ms := 100, parallel_enabled := true, max_retries := 5 }

/-- The model of `RateLimiter::is_parallel_enabled`. -/
def is_parallel_enabled (cfg : RateLimitConfig) : Bool :=
  cfg.parallel_enabled && decide (1 < cfg.max_concurrent_calls)

/-- The model of `can_execute_parallel`.  The global rate limiter's
configuration is passed explicitly as `cfg`; `parse` is the `serde_json`
parser used by `is_safe_shell_command`. -/
def can_execute_parallel (parse : List Char → Option Json) (cfg : RateLimitConfig)
    (items : List ResponseItem) : Bool :=
  if !(is_parallel_enabled cfg) then false
  else if items.length ≤ 1 then false
  else if cfg.max_concurrent_calls < items.length then false
  else if !(items.all isFunctionCall) then false
  else items.all fun item =>
    match item with
    | ResponseItem.FunctionCall _ name arguments _ =>
      if name = str "shell" then is_safe_shell_command parse arguments
      else is_safe_for_parallel name
    | _ => false

/-- `CustomCommandType` from `custom_command.rs`. -/
inductive CustomCommandType where
  | Shell
  | Prompt
deriving DecidableEq

/-- `CustomCommand` from `custom_command.rs`. -/
structure CustomCommand where
  name : List Char
  description : List Char
  command_type : CustomCommandType
  content : List Char
  parallel : Bool
  depends_on : List (List Char)
  accepts_args : Bool
  arg_placeholder : Option (List Char)
  force_high_reasoning : Bool
deriving DecidableEq

/-- The dependency test inside `resolve_command_dependencies`:
`cmd.depends_on.iter().all(|dep| executed.contains(dep))`. -/
def depsSatisfied (executed : List (List Char)) (c : CustomCommand) : Bool :=
  c.depends_on.all fun dep => executed.contains dep

/-- The while-loop of `resolve_command_dependencies`, with explicit fuel.  Each
pass either consumes at least one command or stops, so fuel equal to the number
of remaining commands makes the fuel-0 branch unreachable. -/
def resolveAux : Nat → List (List Char) → List CustomCommand → List (List CustomCommand)
  | 0, _, _ => []
  | fuel + 1, executed, remaining =>
    if remaining.isEmpty then []
    else
      let current_group := remaining.filter (fun c => depsSatisfied executed c)
      let next_remaining := remaining.filter (fun c => !(depsSatisfied executed c))
      if current_group.isEmpty then
        -- Circular dependency: emit remaining commands as singleton waves.
        next_remaining.map (fun c => [c])
      else
        current_group :: resolveAux fuel (executed ++ current_group.map (fun c => c.name))
          next_remaining

/-- The model of `resolve_command_dependencies`. -/
def resolve_command_dependencies (commands : List CustomCommand) : List (List CustomCommand) :=
  resolveAux commands.length [] commands

/-- The cyclic pair from the repository's own `test_circular_dependency_handling`:
command `a` depends on `b`. -/
def cmdA : CustomCommand :=
  { name := str "a", description := str "Command A", command_type := CustomCommandType.Shell,
    content := str "echo a", parallel := false, depends_on := [str "b"],
    accepts_args := false, arg_placeholder := none, force_high_reasoning := false }

/-- Command `b` of the cyclic pair: depends on `a`. -/
def cmdB : CustomCommand :=
  { name := str "b", description := str "Command B", command_type := CustomCommandType.Shell,
    content := str "echo b", parallel := false, depends_on := [str "a"],
    accepts_args := false, arg_placeholder := none, force_high_reasoning := false }

/-- A linear two-command chain for exercising the resolver: `c` has no
dependencies. -/
def cmdC : CustomCommand :=
  { name := str "c", description := str "Command C", command_type := CustomCommandType.Shell,
    content := str "echo c", parallel := false, depends_on := [],
    accepts_args := false, arg_placeholder := none, force_high_reasoning := false }

/-- Command `d` of the linear chain: depends on `c`. -/
def cmdD : CustomCommand :=
  { name := str "d", description := str "Command D", command_type := CustomCommandType.Shell,
    content := str "echo d", parallel := false, depends_on := [str "c"],
    accepts_args := false, arg_placeholder := none, force_high_reasoning := false }

/-! ## PTY session manager truncation (`session_manager.rs`)

Captured output is a UTF-8 byte string, modelled as a `List Nat` of bytes. -/

/-- Rust's char-boundary byte test: a byte starts a UTF-8 scalar iff it is not
a continuation byte (`b as i8 >= -0x40`). -/
def utf8FirstByte (b : Nat) : Bool := b < 0x80 || 0xC0 ≤ b

/-- Rust `str::is_char_boundary` on a byte string. -/
def isCharBoundary (s : List Nat) (i : Nat) : Bool :=
  if i = 0 then true
  else
    match s.get? i with
    | some b => utf8FirstByte b
    | none => i == s.length

/-- The walk-back loop inside `truncate_on_boundary`. -/
def boundaryDown (s : List Nat) : Nat → Nat
  | 0 => 0
  | e + 1 => if isCharBoundary s (e + 1) then e + 1 else boundaryDown s e

/-- The helper `truncate_on_boundary` inside `truncate_middle`. -/
def truncate_on_boundary (input : List Nat) (max_len : Nat) : List Nat :=
  if input.length ≤ max_len then input
  else input.take (boundaryDown input max_len)

/-- Rust `str::rfind` specialised to the newline byte. -/
def rfindNewline : List Nat → Option Nat
  | [] => none
  | b :: t =>
    match rfindNewline t with
    | some i => some (i + 1)
    | none => if b = 10 then some 0 else none

/-- Rust `str::find` specialised to the newline byte. -/
def findNewline : List Nat → Option Nat
  | [] => none
  | b :: t => if b = 10 then some 0 else (findNewline t).map (fun i => i + 1)

/-- `pick_prefix_end`: the position just after the last newline inside the left
window when `s.get(..left_budget)` succeeds (a char boundary) and the window
has a newline; otherwise the longest boundary-aligned slice. -/
def pick_prefix_end (s : List Nat) (left_budget : Nat) : Nat :=
  match (if isCharBoundary s left_budget then rfindNewline (s.take left_budget) else none) with
  | some i => i + 1
  | none => (truncate_on_boundary s left_budget).length

/-- The walk-forward loop at the end of `pick_suffix_start`; fuel `s.length`
dominates the number of possible steps. -/
def boundaryUpAux (s : List Nat) : Nat → Nat → Nat
  | 0, idx => idx
  | fuel + 1, idx =>
    if idx < s.length && !(isCharBoundary s idx) then boundaryUpAux s fuel (idx + 1) else idx

/-- `pick_suffix_start`: the position just after the first newline inside the
right window when `s.get(start_tail..)` succeeds and the window has a newline;
otherwise the first char boundary at or after `start_tail`. -/
def pick_suffix_start (s : List Nat) (right_budget : Nat) : Nat :=
  match (if isCharBoundary s (s.length - right_budget) then
      findNewline (s.drop (s.length - right_budget)) else none) with
  | some i => (s.length - right_budget) + i + 1
  | none => boundaryUpAux s s.length (min (s.length - right_budget) s.length)

/-- ASCII bytes of a literal. -/
def asciiBytes (s : String) : List Nat := s.data.map Char.toNat

/-- Decimal digits (as ASCII bytes) of `n`: the Rust `{}` formatting of a u64. -/
def decDigitsAux : Nat → Nat → List Nat
  | 0, _ => []
  | fuel + 1, n => if n < 10 then [48 + n] else decDigitsAux fuel (n / 10) ++ [48 + n % 10]

def decDigits (n : Nat) : List Nat := decDigitsAux (n + 1) n

/-- UTF-8 bytes of the marker `…N tokens truncated…` (the ellipsis is the
three-byte sequence E2 80 A6). -/
def markerBytes (tokens : Nat) : List Nat :=
  [0xE2, 0x80, 0xA6] ++ decDigits tokens ++ asciiBytes " tokens truncated" ++ [0xE2, 0x80, 0xA6]

/-- The refinement loop of `truncate_middle`: the `for _ in 0..4` iterations at
positive fuel, and the fallback body that follows the loop at fuel 0. -/
def truncLoop (s : List Nat) (max_bytes est_tokens : Nat) : Nat → Nat → List Nat × Option Nat
  | 0, guess_tokens =>
    let marker := markerBytes guess_tokens
    let keep_budget := max_bytes - marker.length
    if keep_budget = 0 then (markerBytes est_tokens, some est_tokens)
    else
      let left_budget := keep_budget / 2
      let right_budget := keep_budget - left_budget
      let prefix_end := pick_prefix_end s left_budget
      let suffix_start := pick_suffix_start s right_budget
      (s.take prefix_end ++ marker ++ [10] ++ s.drop suffix_start, some est_tokens)
  | fuel + 1, guess_tokens =>
    let marker := markerBytes guess_tokens
    let keep_budget := max_bytes - marker.length
    if keep_budget = 0 then (markerBytes est_tokens, some est_tokens)
    else
      let left_budget := keep_budget / 2
      let right_budget := keep_budget - left_budget
      let prefix_end := pick_prefix_end s left_budget
      let suffix_start0 := pick_suffix_start s right_budget
      let suffix_start := if suffix_start0 < prefix_end then prefix_end else suffix_start0
      let kept_content_bytes := prefix_end + (s.length - suffix_start)
      let truncated_content_bytes := s.length - kept_content_bytes
      let new_tokens := (truncated_content_bytes + 3) / 4
      if new_tokens = guess_tokens then
        (s.take prefix_end ++ marker ++ [10] ++ s.drop suffix_start, some est_tokens)
      else truncLoop s max_bytes est_tokens fuel new_tokens

/-- The model of `truncate_middle`: keep the string when it fits, otherwise
elide the middle, preferring newline and char boundaries, and report the
estimated token count (4 bytes per token, rounded up). -/
def truncate_middle (s : List Nat) (max_bytes : Nat) : List Nat × Option Nat :=
  if s.length ≤ max_bytes then (s, none)
  else
    if max_bytes = 0 then
      (markerBytes ((s.length + 3) / 4), some ((s.length + 3) / 4))
    else truncLoop s max_bytes ((s.length + 3) / 4) 4 ((s.length + 3) / 4)

/-! ## PTY session manager: write_stdin (`session_manager.rs`) -/

/-- Modelled from the spec: `ExecCommandSession` (its source file is not among
the sources here) owns the stdin writer channel (bounded capacity 128) and the
output broadcast; for `write_stdin` all that matters is whether the writer
channel can still accept bytes. -/
structure ExecCommandSession where
  writer_closed : Bool
deriving DecidableEq

/-- `ExitStatus` from `session_manager.rs`. -/
inductive ExitStatus where
  | Exited (code : Int)
  | Ongoing (session_id : Nat)
deriving DecidableEq

/-- `ExecCommandOutput` from `session_manager.rs` (`wall_time`, a wall-clock
duration, is outside the embedding and omitted). -/
structure ExecCommandOutput where
  exit_status : ExitStatus
  original_token_count : Option Nat
  output : List Nat
deriving DecidableEq

/-- `WriteStdinParams` from `exec_command_params.rs`; `chars` is carried as its
UTF-8 bytes (`chars.into_bytes()` is what reaches the writer channel). -/
structure WriteStdinParams where
  session_id : Nat
  chars : List Nat
  yield_time_ms : Nat
  max_output_tokens : Nat
deriving DecidableEq

/-- Decimal digits of `n` as characters, for formatted error messages. -/
def decDigitsChars (n : Nat) : List Char := (decDigits n).map Char.ofNat

/-- The model of `handle_write_stdin_request`.  The bytes that the collection
loop would gather within the wall-clock budget are nondeterministic, so they
are supplied as the `collected` parameter.  The result is the response
together with the (unchanged) session map and the list of byte strings sent to
the session's stdin channel. -/
def handle_write_stdin_request (sessions : List (Nat × ExecCommandSession))
    (params : WriteStdinParams) (collected : List Nat) :
    Except (List Char) ExecCommandOutput × List (Nat × ExecCommandSession) × List (List Nat) :=
  match sessions.lookup params.session_id with
  | none =>
    (Except.error (str "unknown session id " ++ decDigitsChars params.session_id), sessions, [])
  | some session =>
    if params.chars ≠ [] ∧ session.writer_closed = true then
      (Except.error (str "failed to write to stdin"), sessions, [])
    else
      (Except.ok { exit_status := ExitStatus.Ongoing params.session_id,
                   original_token_count := (truncate_middle collected (params.max_output_tokens * 4)).2,
                   output := (truncate_middle collected (params.max_output_tokens * 4)).1 },
       sessions,
       if params.chars = [] then [] else [params.chars])

/-! ## Examples mirroring the repository unit tests -/

example : is_rate_limit_error (str "rate limit hit") = true := by decide

example : is_rate_limit_error (str "RATE LIMIT") = false := by decide

example : (str "rate limit") <:+: ((str "RATE LIMIT").map Char.toLower) := by decide

example : is_safe_to_call_with_exec [str "ls"] = true := by decide
example : is_safe_to_call_with_exec [str "git", str "status"] = true := by decide
example : is_safe_to_call_with_exec [str "git", str "fetch"] = false := by decide
example : is_safe_to_call_with_exec [str "sed", str "-n", str "1,5p", str "file.txt"] = true := by
  decide
example : is_safe_to_call_with_exec [str "sed", str "-n", str "xp", str "file.txt"] = false := by
  decide
example : is_safe_to_call_with_exec [str "find", str ".", str "-name", str "x", str "-delete"]
    = false := by decide
example : is_safe_curl_command [str "curl", str "-X", str "POST", str "https://x"] = false := by
  decide
example : is_safe_curl_command [str "curl", str "-X", str "GET", str "https://example.com"]
    = true := by decide
example : is_safe_curl_command
    [str "curl", str "-H", str "Accept: application/json", str "https://example.com"] = true := by
  decide
example : is_safe_curl_command
    [str "curl", str "-H", str "Authorization: Bearer token123", str "https://example.com"]
    = false := by decide
example : is_known_safe_command (fun _ => none) [str "npm", str "install"]
    [[str "npm", str "install"]] = true := by decide
example : is_known_safe_command (fun _ => none) [str "cargo", str "build"]
    [[str "cargo", str "*"]] = true := by decide
example : is_known_safe_command (fun _ => none) [str "rm", str "-rf"] [[str "*"]] = false := by
  decide

/-! ## Helper lemmas -/

lemma list_any_subset {α : Type} {f : α → Bool} {l l' : List α}
    (hsub : ∀ x ∈ l, x ∈ l') (h : l.any f = true) : l'.any f = true := by
  simp only [List.any_eq_true] at h ⊢
  obtain ⟨x, hx, hf⟩ := h
  exact ⟨x, hsub x hx, hf⟩

lemma list_all_imp {α : Type} {f g : α → Bool} {l : List α}
    (hfg : ∀ x ∈ l, f x = true → g x = true) (h : l.all f = true) : l.all g = true := by
  simp only [List.all_eq_true] at h ⊢
  exact fun x hx => hfg x hx (h x hx)

lemma curl_any_of_unsafe {command : List (List Char)} {i : Nat} {arg : List Char}
    (hget : command.get? i = some arg) (hu : curl_unsafe_at command i arg = true) :
    ((List.range command.length).any fun idx =>
      match command.get? idx with
      | some a => curl_unsafe_at command idx a
      | none => false) = true := by
  have hi : i < command.length := by
    by_contra hni
    rw [List.get?_eq_none.mpr (Nat.le_of_not_lt hni)] at hget
    exact Option.noConfusion hget
  simp only [List.any_eq_true, List.mem_range]
  refine ⟨i, hi, ?_⟩
  rw [hget]
  exact hu

lemma is_known_safe_command_mono (parse : List Char → Option (List (List (List Char))))
    (argv : List (List Char)) {T T' : List (List (List Char))}
    (hsub : ∀ x ∈ T, x ∈ T')
    (h : is_known_safe_command parse argv T = true) :
    is_known_safe_command parse argv T' = true := by
  by_cases h1 : T'.any (fun trusted => trusted_matches trusted argv) = true
  · unfold is_known_safe_command
    rw [if_pos h1]
  · have h1T : ¬ T.any (fun trusted => trusted_matches trusted argv) = true :=
      fun hT => h1 (list_any_subset hsub hT)
    unfold is_known_safe_command at h ⊢
    rw [if_neg h1T] at h
    rw [if_neg h1]
    by_cases h2 : is_safe_to_call_with_exec argv = true
    · rw [if_pos h2]
    · rw [if_neg h2] at h ⊢
      rcases argv with _ | ⟨b, _ | ⟨f, _ | ⟨s, _ | ⟨x, rest⟩⟩⟩⟩
      · exact h
      · exact h
      · exact h
      · dsimp only at h ⊢
        by_cases hbf : (b = str "bash" && f = str "-lc") = true
        · rw [if_pos hbf] at h ⊢
          cases hp : parse s with
          | none => rw [hp] at h; exact Bool.noConfusion h
          | some cmds =>
            rw [hp] at h
            dsimp only at h ⊢
            rw [Bool.and_eq_true] at h ⊢
            refine ⟨h.1, list_all_imp ?_ h.2⟩
            intro cmd _ hc
            rw [Bool.or_eq_true] at hc ⊢
            cases hc with
            | inl ht =>
              exact Or.inl (list_any_subset hsub ht)
            | inr hs => exact Or.inr hs
        · rw [if_neg hbf] at h
          exact Bool.noConfusion h
      · exact h

/-! ## Claim C2: classifier monotone in the trusted list -/

/-- C2: the classifier is monotone in the trusted list: if
`is_known_safe_command argv T` is true, adding one more pattern `p` to `T`
(at either end) keeps the result true, for every bash-script parser. -/
theorem classifier_monotone_in_trusted
    (parse : List Char → Option (List (List (List Char))))
    (argv : List (List Char)) (T : List (List (List Char))) (p : List (List Char))
    (h : is_known_safe_command parse argv T = true) :
    is_known_safe_command parse argv (T ++ [p]) = true ∧
    is_known_safe_command parse argv (p :: T) = true :=
  ⟨is_known_safe_command_mono parse argv (fun _ hx => List.mem_append_left _ hx) h,
   is_known_safe_command_mono parse argv (fun _ hx => List.mem_cons_of_mem _ hx) h⟩

/-- Witness for C2 at a concrete input. -/
theorem classifier_monotone_in_trusted_witness :
    is_known_safe_command (fun _ => none) [str "ls"]
      ([[str "npm", str "install"]] ++ [[str "rm", str "-rf"]]) = true ∧
    is_known_safe_command (fun _ => none) [str "ls"]
      ([str "rm", str "-rf"] :: [[str "npm", str "install"]]) = true :=
  classifier_monotone_in_trusted (fun _ => none) [str "ls"]
    [[str "npm", str "install"]] [str "rm", str "-rf"] (by decide)

/-! ## Claim C9: the bare wildcard pattern only matches itself -/

/-- C9: the single-element pattern containing just the string `*` matches a
command under the trusted-command matcher only when the command is literally
the one-element list containing `*`; wildcard expansion needs at least two
pattern elements, so configuring a bare `*` does not trust every command. -/
theorem star_pattern_matches_only_itself
    (argv : List (List Char))
    (h : is_command_trusted argv [[str "*"]] = true) :
    argv = [str "*"] := by
  unfold is_command_trusted at h
  simp only [List.any_eq_true, List.mem_singleton] at h
  obtain ⟨t, ht, hm⟩ := h
  subst ht
  unfold trusted_matches at hm
  by_cases heq : ([str "*"] : List (List Char)) = argv
  · exact heq.symm
  · rw [if_neg heq] at hm
    have hcond : ¬ (2 ≤ ([str "*"] : List (List Char)).length ∧
        ([str "*"] : List (List Char)).getLast? = some (str "*")) := by
      intro hc
      exact absurd hc.1 (by decide)
    rw [if_neg hcond] at hm
    exact Bool.noConfusion hm

/-- Witness for C9 at a concrete input. -/
theorem star_pattern_matches_only_itself_witness :
    is_command_trusted [str "*"] [[str "*"]] = true ∧ ([str "*"] : List (List Char)) = [str "*"] :=
  ⟨by decide, star_pattern_matches_only_itself [str "*"] (by decide)⟩

/-! ## Claim C4: rate-limit error classification is case-sensitive, not
case-insensitive as claimed -/

/-- C4 counterexample: the message `RATE LIMIT` contains `rate limit`
case-insensitively, yet `is_rate_limit_error` classifies it as false, refuting
the claimed case-insensitive matching. -/
theorem rate_limit_error_not_case_insensitive :
    (str "rate limit") <:+: ((str "RATE LIMIT").map Char.toLower) ∧
    is_rate_limit_error (str "RATE LIMIT") = false := by
  constructor
  · decide
  · decide

/-- C4 amended: `is_rate_limit_error msg` is true iff `msg` contains one of the
five exact (case-sensitive) substrings checked by the code. -/
theorem rate_limit_error_iff_exact_substrings (msg : List Char) :
    is_rate_limit_error msg = true ↔
      ((str "rate limit") <:+: msg ∨ (str "Rate limit") <:+: msg ∨
       (str "429") <:+: msg ∨ (str "too many requests") <:+: msg ∨
       (str "Too Many Requests") <:+: msg) := by
  simp [is_rate_limit_error, containsSub, Bool.or_eq_true, decide_eq_true_iff]
  tauto

/-! ## Claim C7: curl rejects dangerous headers and non-GET/HEAD methods -/

/-- C7: for every argv headed by `curl`, `is_safe_curl_command` returns false
whenever some argument is `-H`/`--header` followed by a dangerous header (or is
`--header=value` with a dangerous value), or `-X`/`--request` is followed by a
method other than GET or HEAD compared case-insensitively.  A header is
dangerous when its name — the part before the first colon, trimmed and
lower-cased — is in the dangerous-header set, or when it has no colon. -/
theorem curl_rejects_dangerous_requests
    (command : List (List Char))
    (h0 : command.head? = some (str "curl"))
    (hbad :
      (∃ i h, (command.get? i = some (str "-H") ∨ command.get? i = some (str "--header")) ∧
        command.get? (i + 1) = some h ∧ is_dangerous_header h = true) ∨
      (∃ i rest, command.get? i = some (str "--header=" ++ rest) ∧
        is_dangerous_header rest = true) ∨
      (∃ i m, (command.get? i = some (str "-X") ∨ command.get? i = some (str "--request")) ∧
        command.get? (i + 1) = some m ∧
        m.map Char.toUpper ≠ str "GET" ∧ m.map Char.toUpper ≠ str "HEAD")) :
    is_safe_curl_command command = false := by
  have hne : ¬ (command.isEmpty = true) := by
    cases command with
    | nil => exact absurd h0 (by simp)
    | cons a l => simp
  have hcu : ¬ (command.head? ≠ some (str "curl")) := fun hc => hc h0
  have hany : ((List.range command.length).any fun idx =>
      match command.get? idx with
      | some arg => curl_unsafe_at command idx arg
      | none => false) = true := by
    rcases hbad with ⟨i, h, hopt, hnext, hdang⟩ | ⟨i, rest, hget, hdang⟩ |
      ⟨i, m, hopt, hnext, hm1, hm2⟩
    · rcases hopt with hgi | hgi
      · refine curl_any_of_unsafe hgi ?_
        unfold curl_unsafe_at
        rw [Bool.or_eq_true]
        refine Or.inl ?_
        rw [Bool.or_eq_true]
        refine Or.inr ?_
        have hcond : (decide ((str "-H" : List Char) = str "-H") ||
            decide ((str "-H" : List Char) = str "--header")) = true := by decide
        rw [if_pos hcond, hnext]
        exact hdang
      · refine curl_any_of_unsafe hgi ?_
        unfold curl_unsafe_at
        rw [Bool.or_eq_true]
        refine Or.inl ?_
        rw [Bool.or_eq_true]
        refine Or.inr ?_
        have hcond : (decide ((str "--header" : List Char) = str "-H") ||
            decide ((str "--header" : List Char) = str "--header")) = true := by decide
        rw [if_pos hcond, hnext]
        exact hdang
    · refine curl_any_of_unsafe hget ?_
      unfold curl_unsafe_at
      rw [Bool.or_eq_true]
      refine Or.inl ?_
      rw [Bool.or_eq_true]
      refine Or.inr ?_
      have hne1 : ¬ ((str "--header=" ++ rest : List Char) = str "-H") := by
        intro hq
        have hl := congrArg List.length hq
        rw [List.length_append] at hl
        have h9 : (str "--header=" : List Char).length = 9 := by decide
        have h2 : (str "-H" : List Char).length = 2 := by decide
        rw [h9, h2] at hl
        omega
      have hne2 : ¬ ((str "--header=" ++ rest : List Char) = str "--header") := by
        intro hq
        have hl := congrArg List.length hq
        rw [List.length_append] at hl
        have h9 : (str "--header=" : List Char).length = 9 := by decide
        have h8 : (str "--header" : List Char).length = 8 := by decide
        rw [h9, h8] at hl
        omega
      have hcond : ¬ ((decide ((str "--header=" ++ rest : List Char) = str "-H") ||
          decide ((str "--header=" ++ rest : List Char) = str "--header")) = true) := by
        rw [decide_eq_false hne1, decide_eq_false hne2]
        simp
      rw [if_neg hcond]
      have hpre : (str "--header=").isPrefixOf (str "--header=" ++ rest) = true :=
        List.isPrefixOf_iff_prefix.mpr (List.prefix_append _ _)
      rw [if_pos hpre]
      have hdrop : (str "--header=" ++ rest).drop 9 = rest := by
        have h9 : (9 : Nat) = (str "--header=" : List Char).length := by decide
        rw [h9, List.drop_left]
      rw [hdrop]
      exact hdang
    · rcases hopt with hgi | hgi
      · refine curl_any_of_unsafe hgi ?_
        unfold curl_unsafe_at
        rw [Bool.or_eq_true]
        refine Or.inl ?_
        rw [Bool.or_eq_true]
        refine Or.inl ?_
        rw [Bool.or_eq_true]
        refine Or.inr ?_
        rw [Bool.and_eq_true, hnext]
        exact ⟨by decide, decide_eq_true ⟨hm1, hm2⟩⟩
      · refine curl_any_of_unsafe hgi ?_
        unfold curl_unsafe_at
        rw [Bool.or_eq_true]
        refine Or.inl ?_
        rw [Bool.or_eq_true]
        refine Or.inl ?_
        rw [Bool.or_eq_true]
        refine Or.inr ?_
        rw [Bool.and_eq_true, hnext]
        exact ⟨by decide, decide_eq_true ⟨hm1, hm2⟩⟩
  unfold is_safe_curl_command
  rw [if_neg hne, if_neg hcu, hany]
  rfl

/-- Witness for C7 at a concrete input. -/
theorem curl_rejects_dangerous_requests_witness :
    is_safe_curl_command [str "curl", str "-H", str "Authorization: B", str "https://x"] = false :=
  curl_rejects_dangerous_requests _ (by decide)
    (Or.inl ⟨1, str "Authorization: B", Or.inl (by decide), by decide, by decide⟩)

lemma length_filter_not_lt {α : Type} (p : α → Bool) (l : List α)
    (h : l.filter p ≠ []) : (l.filter fun x => !p x).length < l.length := by
  have hsum : l.length = (l.filter p).length + (l.filter (fun x => !p x)).length :=
    List.length_eq_length_filter_add p
  have hpos : 0 < (l.filter p).length := List.length_pos.mpr h
  omega

lemma flatten_map_singleton {α : Type} (l : List α) : (l.map (fun c => [c])).flatten = l := by
  induction l with
  | nil => rfl
  | cons a t ih => simp [ih]

lemma resolveAux_flatten_perm :
    ∀ (fuel : Nat) (executed : List (List Char)) (remaining : List CustomCommand),
      remaining.length ≤ fuel →
      ((resolveAux fuel executed remaining).flatten).Perm remaining := by
  intro fuel
  induction fuel with
  | zero =>
    intro executed remaining hlen
    have hnil : remaining = [] := List.eq_nil_of_length_eq_zero (Nat.le_zero.mp hlen)
    subst hnil
    simp [resolveAux]
  | succ fuel ih =>
    intro executed remaining hlen
    by_cases hrem : remaining.isEmpty = true
    · have hnil : remaining = [] := List.isEmpty_iff.mp hrem
      subst hnil
      simp [resolveAux]
    · rw [resolveAux, if_neg hrem]
      by_cases hcur : (remaining.filter (fun c => depsSatisfied executed c)).isEmpty = true
      · rw [if_pos hcur, flatten_map_singleton]
        have hnil : remaining.filter (fun c => depsSatisfied executed c) = [] :=
          List.isEmpty_iff.mp hcur
        have hall : remaining.filter (fun c => !(depsSatisfied executed c)) = remaining := by
          rw [List.filter_eq_self]
          intro a ha
          have hna := List.filter_eq_nil_iff.mp hnil a ha
          rw [eq_false_of_ne_true hna]
          rfl
        rw [hall]
      · rw [if_neg hcur]
        have hne : remaining.filter (fun c => depsSatisfied executed c) ≠ [] :=
          fun hq => hcur (by rw [hq]; rfl)
        have hlt : (remaining.filter (fun c => !(depsSatisfied executed c))).length <
            remaining.length :=
          length_filter_not_lt (fun c => depsSatisfied executed c) remaining hne
        have hnext : (remaining.filter (fun c => !(depsSatisfied executed c))).length ≤ fuel := by
          omega
        have ihp := ih
          (executed ++ (remaining.filter (fun c => depsSatisfied executed c)).map (fun c => c.name))
          (remaining.filter (fun c => !(depsSatisfied executed c))) hnext
        rw [List.flatten_cons]
        exact (List.Perm.append_left _ ihp).trans (List.filter_append_perm _ _)

lemma resolveAux_cut :
    ∀ (fuel : Nat) (executed : List (List Char)) (remaining : List CustomCommand),
      remaining.length ≤ fuel →
      ∃ (waves1 : List (List CustomCommand)) (tailc : List CustomCommand),
        resolveAux fuel executed remaining = waves1 ++ tailc.map (fun c => [c]) ∧
        (∀ i cmd, cmd ∈ waves1.getD i [] → ∀ dep ∈ cmd.depends_on,
            dep ∈ executed ∨ dep ∈ ((waves1.take i).flatten).map (fun c => c.name)) ∧
        (∀ c ∈ tailc,
            depsSatisfied (executed ++ (waves1.flatten).map (fun c => c.name)) c = false) ∧
        tailc.Sublist remaining := by
  intro fuel
  induction fuel with
  | zero =>
    intro executed remaining hlen
    have hnil : remaining = [] := List.eq_nil_of_length_eq_zero (Nat.le_zero.mp hlen)
    subst hnil
    refine ⟨[], [], by simp [resolveAux], ?_, ?_, List.Sublist.refl []⟩
    · intro i cmd hmem
      simp at hmem
    · intro c hc
      simp at hc
  | succ fuel ih =>
    intro executed remaining hlen
    by_cases hrem : remaining.isEmpty = true
    · have hnil : remaining = [] := List.isEmpty_iff.mp hrem
      subst hnil
      refine ⟨[], [], by simp [resolveAux], ?_, ?_, List.Sublist.refl []⟩
      · intro i cmd hmem
        simp at hmem
      · intro c hc
        simp at hc
    · by_cases hcur : (remaining.filter (fun c => depsSatisfied executed c)).isEmpty = true
      · -- The cycle fallback fires at this step: no normal waves, all singletons.
        refine ⟨[], remaining.filter (fun c => !(depsSatisfied executed c)), ?_, ?_, ?_,
          List.filter_sublist _⟩
        · rw [resolveAux, if_neg hrem, if_pos hcur]
          exact (List.nil_append _).symm
        · intro i cmd hmem
          simp at hmem
        · intro c hc
          have hnc : (!(depsSatisfied executed c)) = true := (List.mem_filter.mp hc).2
          rw [show executed ++ ((([] : List (List CustomCommand)).flatten).map
              (fun c => c.name)) = executed from by simp]
          cases hd : depsSatisfied executed c
          · rfl
          · rw [hd] at hnc
            exact Bool.noConfusion hnc
      · -- A normal round: the current group becomes one more normal wave.
        have hne : remaining.filter (fun c => depsSatisfied executed c) ≠ [] :=
          fun hq => hcur (by rw [hq]; rfl)
        have hlt : (remaining.filter (fun c => !(depsSatisfied executed c))).length <
            remaining.length :=
          length_filter_not_lt (fun c => depsSatisfied executed c) remaining hne
        have hnext : (remaining.filter (fun c => !(depsSatisfied executed c))).length ≤ fuel := by
          omega
        obtain ⟨waves1, tailc, heq, hdeps, htail, hsub⟩ := ih
          (executed ++ (remaining.filter (fun c => depsSatisfied executed c)).map
            (fun c => c.name))
          (remaining.filter (fun c => !(depsSatisfied executed c))) hnext
        refine ⟨remaining.filter (fun c => depsSatisfied executed c) :: waves1, tailc, ?_, ?_, ?_,
          hsub.trans (List.filter_sublist _)⟩
        · rw [resolveAux, if_neg hrem, if_neg hcur, heq]
          rfl
        · intro i cmd hmem
          cases i with
          | zero =>
            rw [List.getD_cons_zero] at hmem
            intro dep hdep
            left
            have hsat : depsSatisfied executed cmd = true := List.of_mem_filter hmem
            unfold depsSatisfied at hsat
            exact List.elem_iff.mp (List.all_eq_true.mp hsat dep hdep)
          | succ j =>
            rw [List.getD_cons_succ] at hmem
            intro dep hdep
            rcases hdeps j cmd hmem dep hdep with hex | hw
            · rw [List.mem_append] at hex
              rcases hex with hex | hcg
              · exact Or.inl hex
              · right
                rw [List.take_succ_cons, List.flatten_cons, List.map_append]
                exact List.mem_append_left _ hcg
            · right
              rw [List.take_succ_cons, List.flatten_cons, List.map_append]
              exact List.mem_append_right _ hw
        · intro c hc
          have h0 := htail c hc
          have hrw : executed ++
              ((((remaining.filter (fun c => depsSatisfied executed c)) :: waves1).flatten).map
                (fun c => c.name)) =
              (executed ++ (remaining.filter (fun c => depsSatisfied executed c)).map
                (fun c => c.name)) ++ (waves1.flatten).map (fun c => c.name) := by
            rw [List.flatten_cons, List.map_append, List.append_assoc]
          rw [hrw]
          exact h0

/-! ## Claim C5: DAG resolver waves -/

/-- C5 (amended): every command appears in exactly one wave (the waves flatten
to a permutation of the input), and the wave list splits into normal waves
followed by cycle-fallback singletons: every dependency of every command in a
normal wave — singleton or not — names a command placed in a strictly earlier
wave; each fallback command still has an unsatisfied dependency given all
commands emitted before the fallback, and the fallback commands appear as
singleton waves in the original input order (an order-preserving sublist of
the input). -/
theorem dag_resolver_waves (commands : List CustomCommand) :
    ((resolve_command_dependencies commands).flatten).Perm commands ∧
    ∃ (waves1 : List (List CustomCommand)) (tailc : List CustomCommand),
      resolve_command_dependencies commands = waves1 ++ tailc.map (fun c => [c]) ∧
      (∀ i cmd, cmd ∈ waves1.getD i [] → ∀ dep ∈ cmd.depends_on,
          dep ∈ ((waves1.take i).flatten).map (fun c => c.name)) ∧
      (∀ c ∈ tailc, depsSatisfied ((waves1.flatten).map (fun c => c.name)) c = false) ∧
      tailc.Sublist commands := by
  refine ⟨resolveAux_flatten_perm commands.length [] commands le_rfl, ?_⟩
  obtain ⟨waves1, tailc, heq, hdeps, htail, hsub⟩ :=
    resolveAux_cut commands.length [] commands le_rfl
  refine ⟨waves1, tailc, heq, ?_, ?_, hsub⟩
  · intro i cmd hmem dep hdep
    rcases hdeps i cmd hmem dep hdep with hex | hw
    · exact absurd hex (List.not_mem_nil _)
    · exact hw
  · intro c hc
    have h0 := htail c hc
    rw [List.nil_append] at h0
    exact h0

/-- C5 counterexample: on the cyclic pair from the repository's own test
(`a` depends on `b`, `b` depends on `a`) the resolver emits `[[a], [b]]`, and
the dependency `b` of the wave-0 command `a` names an input command yet lies in
no strictly earlier wave, refuting the unqualified earlier-wave clause. -/
theorem dag_resolver_earlier_wave_counterexample :
    resolve_command_dependencies [cmdA, cmdB] = [[cmdA], [cmdB]] ∧
    cmdA ∈ (resolve_command_dependencies [cmdA, cmdB]).getD 0 [] ∧
    (str "b") ∈ cmdA.depends_on ∧
    (str "b") ∈ [cmdA, cmdB].map CustomCommand.name ∧
    ¬ (str "b") ∈ (((resolve_command_dependencies [cmdA, cmdB]).take 0).flatten).map
      CustomCommand.name := by
  exact ⟨by decide, by decide, by decide, by decide, by decide⟩

/-- Witness for C5 at a concrete input: the linear chain `c`, `d depends on c`
resolves to `[[c], [d]]`, two normal singleton waves with an empty fallback
tail, so the earlier-wave guarantee applies to both. -/
theorem dag_resolver_waves_witness :
    ((resolve_command_dependencies [cmdC, cmdD]).flatten).Perm [cmdC, cmdD] ∧
    ∃ (waves1 : List (List CustomCommand)) (tailc : List CustomCommand),
      resolve_command_dependencies [cmdC, cmdD] = waves1 ++ tailc.map (fun c => [c]) ∧
      (∀ i cmd, cmd ∈ waves1.getD i [] → ∀ dep ∈ cmd.depends_on,
          dep ∈ ((waves1.take i).flatten).map (fun c => c.name)) ∧
      (∀ c ∈ tailc, depsSatisfied ((waves1.flatten).map (fun c => c.name)) c = false) ∧
      tailc.Sublist [cmdC, cmdD] :=
  dag_resolver_waves [cmdC, cmdD]

/-! ## Claim C10: batch size limits -/

/-- C10: `can_execute_parallel` is false whenever the batch has at most one
item or more items than the configured `max_concurrent_calls`, for every
rate-limiter configuration and every parser. -/
theorem parallel_batch_size_limits (parse : List Char → Option Json) (cfg : RateLimitConfig)
    (items : List ResponseItem)
    (h : items.length ≤ 1 ∨ cfg.max_concurrent_calls < items.length) :
    can_execute_parallel parse cfg items = false := by
  unfold can_execute_parallel
  by_cases he : (!(is_parallel_enabled cfg)) = true
  · rw [if_pos he]
  · rw [if_neg he]
    by_cases hl : items.length ≤ 1
    · rw [if_pos hl]
    · have hgt : cfg.max_concurrent_calls < items.length := by
        rcases h with h | h
        · exact absurd h hl
        · exact h
      rw [if_neg hl, if_pos hgt]

/-- Witness for C10 at a concrete input. -/
theorem parallel_batch_size_limits_witness :
    can_execute_parallel (fun _ => none) defaultRateLimitConfig [] = false :=
  parallel_batch_size_limits (fun _ => none) defaultRateLimitConfig [] (Or.inl (by decide))

/-! ## Claim C3: parallel groups contain only read-only function calls -/

/-- C3: when `can_execute_parallel` approves a batch, every item is a
FunctionCall whose name is one of the four read operations, or an `mcp__` name
containing a read-like marker, or `shell` with JSON arguments whose `command`
array starts with one of the nine read-only programs — in particular never a
shell command starting with `rm`. -/
theorem parallel_group_items_all_safe
    (parse : List Char → Option Json) (cfg : RateLimitConfig) (items : List ResponseItem)
    (h : can_execute_parallel parse cfg items = true) :
    ∀ item ∈ items, ∃ id name arguments call_id,
      item = ResponseItem.FunctionCall id name arguments call_id ∧
      (name ∈ [str "read_file", str "list_files", str "search_files", str "glob_files"] ∨
       ((str "mcp__") <+: name ∧
         ((str "_read") <:+: name ∨ (str "_get") <:+: name ∨ (str "_list") <:+: name ∨
          (str "_search") <:+: name ∨ (str "_status") <:+: name)) ∨
       (name = str "shell" ∧ ∃ v cmd0, parse arguments = some v ∧
         json_command_head v = some cmd0 ∧
         cmd0 ∈ [str "cat", str "ls", str "grep", str "head", str "tail", str "wc",
           str "find", str "pwd", str "echo"] ∧ cmd0 ≠ str "rm")) := by
  unfold can_execute_parallel at h
  by_cases h1 : (!(is_parallel_enabled cfg)) = true
  · rw [if_pos h1] at h
    exact Bool.noConfusion h
  rw [if_neg h1] at h
  by_cases h2 : items.length ≤ 1
  · rw [if_pos h2] at h
    exact Bool.noConfusion h
  rw [if_neg h2] at h
  by_cases h3 : cfg.max_concurrent_calls < items.length
  · rw [if_pos h3] at h
    exact Bool.noConfusion h
  rw [if_neg h3] at h
  by_cases h4 : (!(items.all isFunctionCall)) = true
  · rw [if_pos h4] at h
    exact Bool.noConfusion h
  rw [if_neg h4] at h
  intro item hmem
  have hitem := List.all_eq_true.mp h item hmem
  cases item with
  | OtherVariant => exact Bool.noConfusion hitem
  | FunctionCall id name arguments call_id =>
    refine ⟨id, name, arguments, call_id, rfl, ?_⟩
    dsimp only at hitem
    by_cases hs : name = str "shell"
    · rw [if_pos hs] at hitem
      right; right
      refine ⟨hs, ?_⟩
      unfold is_safe_shell_command at hitem
      cases hp : parse arguments with
      | none =>
        rw [hp] at hitem
        exact Bool.noConfusion hitem
      | some v =>
        rw [hp] at hitem
        dsimp only at hitem
        cases hj : json_command_head v with
        | none =>
          rw [hj] at hitem
          exact Bool.noConfusion hitem
        | some cmd0 =>
          rw [hj] at hitem
          dsimp only at hitem
          have hc0 := of_decide_eq_true hitem
          have hrm : cmd0 ≠ str "rm" := by
            intro hq
            rw [hq] at hc0
            exact absurd hc0 (by decide)
          exact ⟨v, cmd0, rfl, hj, hc0, hrm⟩
    · rw [if_neg hs] at hitem
      unfold is_safe_for_parallel at hitem
      by_cases hr : name ∈ [str "read_file", str "list_files", str "search_files",
          str "glob_files"]
      · exact Or.inl hr
      · rw [if_neg (fun hc => hr (of_decide_eq_true hc))] at hitem
        by_cases hm : (str "mcp__").isPrefixOf name = true
        · rw [if_pos hm] at hitem
          refine Or.inr (Or.inl ⟨List.isPrefixOf_iff_prefix.mp hm, ?_⟩)
          simp only [containsSub, Bool.or_eq_true, decide_eq_true_iff] at hitem
          tauto
        · rw [if_neg hm] at hitem
          by_cases hc : name ∈ [str "container.exec", str "apply_patch", str "update_plan"]
          · rw [if_pos (decide_eq_true hc)] at hitem
            exact Bool.noConfusion hitem
          · rw [if_neg (fun hcc => hc (of_decide_eq_true hcc))] at hitem
            rw [if_neg hs] at hitem
            exact Bool.noConfusion hitem

/-- Witness for C3 at a concrete input. -/
theorem parallel_group_items_all_safe_witness :
    ∃ id name arguments call_id,
      ResponseItem.FunctionCall none (str "read_file") (str "a") (str "1") =
        ResponseItem.FunctionCall id name arguments call_id ∧
      (name ∈ [str "read_file", str "list_files", str "search_files", str "glob_files"] ∨
       ((str "mcp__") <+: name ∧
         ((str "_read") <:+: name ∨ (str "_get") <:+: name ∨ (str "_list") <:+: name ∨
          (str "_search") <:+: name ∨ (str "_status") <:+: name)) ∨
       (name = str "shell" ∧ ∃ v cmd0, (fun _ => (none : Option Json)) arguments = some v ∧
         json_command_head v = some cmd0 ∧
         cmd0 ∈ [str "cat", str "ls", str "grep", str "head", str "tail", str "wc",
           str "find", str "pwd", str "echo"] ∧ cmd0 ≠ str "rm")) :=
  parallel_group_items_all_safe (fun _ => none) defaultRateLimitConfig
    [ResponseItem.FunctionCall none (str "read_file") (str "a") (str "1"),
     ResponseItem.FunctionCall none (str "list_files") (str "a") (str "2")]
    (by decide)
    (ResponseItem.FunctionCall none (str "read_file") (str "a") (str "1"))
    (by decide)

/-! ## Truncation lemmas -/

lemma boundaryDown_le (s : List Nat) : ∀ e, boundaryDown s e ≤ e := by
  intro e
  induction e with
  | zero => exact le_rfl
  | succ e ih =>
    rw [boundaryDown]
    split
    · exact le_rfl
    · exact le_trans ih (by omega)

lemma truncate_on_boundary_length (input : List Nat) (max_len : Nat) :
    (truncate_on_boundary input max_len).length ≤ max_len ∧
    (truncate_on_boundary input max_len).length ≤ input.length := by
  unfold truncate_on_boundary
  by_cases h : input.length ≤ max_len
  · rw [if_pos h]
    exact ⟨h, le_rfl⟩
  · rw [if_neg h]
    rw [List.length_take]
    constructor
    · exact le_trans (Nat.min_le_left _ _) (boundaryDown_le input max_len)
    · exact Nat.min_le_right _ _

lemma rfindNewline_lt : ∀ (l : List Nat) (i : Nat), rfindNewline l = some i → i < l.length := by
  intro l
  induction l with
  | nil => intro i h; exact Option.noConfusion h
  | cons b t ih =>
    intro i h
    rw [rfindNewline] at h
    cases ht : rfindNewline t with
    | some j =>
      rw [ht] at h
      have hji : j + 1 = i := Option.some.inj h
      have hj := ih j ht
      rw [List.length_cons]
      omega
    | none =>
      rw [ht] at h
      dsimp only at h
      by_cases hb : b = 10
      · rw [if_pos hb] at h
        have hji : (0 : Nat) = i := Option.some.inj h
        rw [List.length_cons]
        omega
      · rw [if_neg hb] at h
        exact Option.noConfusion h

lemma findNewline_lt : ∀ (l : List Nat) (i : Nat), findNewline l = some i → i < l.length := by
  intro l
  induction l with
  | nil => intro i h; exact Option.noConfusion h
  | cons b t ih =>
    intro i h
    rw [findNewline] at h
    by_cases hb : b = 10
    · rw [if_pos hb] at h
      have hji : (0 : Nat) = i := Option.some.inj h
      rw [List.length_cons]
      omega
    · rw [if_neg hb] at h
      cases ht : findNewline t with
      | none =>
        rw [ht] at h
        exact Option.noConfusion h
      | some j =>
        rw [ht] at h
        have hji : j + 1 = i := Option.some.inj h
        have hj := ih j ht
        rw [List.length_cons]
        omega

lemma pick_prefix_end_le (s : List Nat) (left_budget : Nat) :
    pick_prefix_end s left_budget ≤ left_budget ∧ pick_prefix_end s left_budget ≤ s.length := by
  unfold pick_prefix_end
  by_cases hb : isCharBoundary s left_budget = true
  · rw [if_pos hb]
    cases hr : rfindNewline (s.take left_budget) with
    | none => exact truncate_on_boundary_length s left_budget
    | some i =>
      dsimp only
      have hi := rfindNewline_lt _ i hr
      rw [List.length_take] at hi
      have h1 := Nat.min_le_left left_budget s.length
      have h2 := Nat.min_le_right left_budget s.length
      omega
  · rw [if_neg hb]
    exact truncate_on_boundary_length s left_budget

lemma boundaryUpAux_ge (s : List Nat) : ∀ fuel idx, idx ≤ boundaryUpAux s fuel idx := by
  intro fuel
  induction fuel with
  | zero => intro idx; exact le_rfl
  | succ fuel ih =>
    intro idx
    rw [boundaryUpAux]
    split
    · exact le_trans (by omega) (ih (idx + 1))
    · exact le_rfl

lemma boundaryUpAux_le (s : List Nat) :
    ∀ fuel idx, idx ≤ s.length → boundaryUpAux s fuel idx ≤ s.length := by
  intro fuel
  induction fuel with
  | zero => intro idx h; exact h
  | succ fuel ih =>
    intro idx h
    rw [boundaryUpAux]
    split
    · rename_i hc
      rw [Bool.and_eq_true] at hc
      have hlt := of_decide_eq_true hc.1
      exact ih (idx + 1) (by omega)
    · exact h

lemma pick_suffix_start_bounds (s : List Nat) (right_budget : Nat) :
    s.length - right_budget ≤ pick_suffix_start s right_budget ∧
    pick_suffix_start s right_budget ≤ s.length := by
  unfold pick_suffix_start
  by_cases hb : isCharBoundary s (s.length - right_budget) = true
  · rw [if_pos hb]
    cases hf : findNewline (s.drop (s.length - right_budget)) with
    | none =>
      dsimp only
      rw [Nat.min_eq_left (Nat.sub_le _ _)]
      exact ⟨boundaryUpAux_ge s s.length _, boundaryUpAux_le s s.length _ (Nat.sub_le _ _)⟩
    | some i =>
      dsimp only
      have hi := findNewline_lt _ i hf
      rw [List.length_drop] at hi
      omega
  · rw [if_neg hb]
    dsimp only
    rw [Nat.min_eq_left (Nat.sub_le _ _)]
    exact ⟨boundaryUpAux_ge s s.length _, boundaryUpAux_le s s.length _ (Nat.sub_le _ _)⟩

lemma truncLoop_length (s : List Nat) (max_bytes est : Nat) :
    ∀ fuel guess,
      (truncLoop s max_bytes est fuel guess).1.length ≤
        max (max_bytes + 1) (markerBytes est).length := by
  intro fuel
  induction fuel with
  | zero =>
    intro guess
    simp only [truncLoop]
    split
    · exact le_max_right _ _
    · rename_i hk
      refine le_trans ?_ (le_max_left _ _)
      dsimp only
      have hpe := pick_prefix_end_le s ((max_bytes - (markerBytes guess).length) / 2)
      have hss := pick_suffix_start_bounds s
        (max_bytes - (markerBytes guess).length - (max_bytes - (markerBytes guess).length) / 2)
      have hmin : min (pick_prefix_end s ((max_bytes - (markerBytes guess).length) / 2)) s.length ≤
          pick_prefix_end s ((max_bytes - (markerBytes guess).length) / 2) :=
        Nat.min_le_left _ _
      simp only [List.length_append, List.length_take, List.length_drop, List.length_cons,
        List.length_nil]
      omega
  | succ fuel ih =>
    intro guess
    simp only [truncLoop]
    split
    · exact le_max_right _ _
    · rename_i hk
      have hpe := pick_prefix_end_le s ((max_bytes - (markerBytes guess).length) / 2)
      have hss := pick_suffix_start_bounds s
        (max_bytes - (markerBytes guess).length - (max_bytes - (markerBytes guess).length) / 2)
      have hmin : min (pick_prefix_end s ((max_bytes - (markerBytes guess).length) / 2))
          s.length ≤
          pick_prefix_end s ((max_bytes - (markerBytes guess).length) / 2) :=
        Nat.min_le_left _ _
      split
      · split
        · refine le_trans ?_ (le_max_left _ _)
          simp only [List.length_append, List.length_take, List.length_drop, List.length_cons,
            List.length_nil]
          omega
        · exact ih _
      · split
        · refine le_trans ?_ (le_max_left _ _)
          simp only [List.length_append, List.length_take, List.length_drop, List.length_cons,
            List.length_nil]
          omega
        · exact ih _

lemma truncLoop_shape (s : List Nat) (max_bytes est : Nat) :
    ∀ fuel guess,
      (∃ pe ss, pe ≤ s.length ∧ ss ≤ s.length ∧ ∃ n,
        (truncLoop s max_bytes est fuel guess).1 =
          s.take pe ++ markerBytes n ++ [10] ++ s.drop ss) ∨
      (truncLoop s max_bytes est fuel guess).1 = markerBytes est := by
  intro fuel
  induction fuel with
  | zero =>
    intro guess
    simp only [truncLoop]
    split
    · right
      rfl
    · left
      refine ⟨pick_prefix_end s ((max_bytes - (markerBytes guess).length) / 2),
        pick_suffix_start s
          (max_bytes - (markerBytes guess).length - (max_bytes - (markerBytes guess).length) / 2),
        (pick_prefix_end_le s _).2, (pick_suffix_start_bounds s _).2, guess, rfl⟩
  | succ fuel ih =>
    intro guess
    simp only [truncLoop]
    split
    · right
      rfl
    · split
      · split
        · left
          exact ⟨pick_prefix_end s ((max_bytes - (markerBytes guess).length) / 2),
            pick_prefix_end s ((max_bytes - (markerBytes guess).length) / 2),
            (pick_prefix_end_le s _).2, (pick_prefix_end_le s _).2, guess, rfl⟩
        · exact ih _
      · split
        · left
          exact ⟨pick_prefix_end s ((max_bytes - (markerBytes guess).length) / 2),
            pick_suffix_start s (max_bytes - (markerBytes guess).length -
              (max_bytes - (markerBytes guess).length) / 2),
            (pick_prefix_end_le s _).2, (pick_suffix_start_bounds s _).2, guess, rfl⟩
        · exact ih _

/-! ## Claim C1: truncation budget -/

/-- C1 counterexample: for 100 bytes of `a` and cap 50 the result is 51 bytes
long — one more than `max(cap, len(marker))` — because a newline is appended
after the embedded marker `…19 tokens truncated…` (whose length is 25). -/
theorem truncation_budget_counterexample :
    (truncate_middle (List.replicate 100 97) 50).1 =
      List.replicate 12 97 ++ markerBytes 19 ++ [10] ++ List.replicate 13 97 ∧
    (truncate_middle (List.replicate 100 97) 50).1.length = 51 ∧
    ¬ ((truncate_middle (List.replicate 100 97) 50).1.length ≤
        max 50 (markerBytes 19).length) := by
  exact ⟨by decide, by decide, by decide⟩

/-- C1 (amended): the output of `truncate_middle s cap` has byte length at most
`max(cap, len(marker)) + 1`, where the marker is the `…N tokens truncated…`
string for the full-truncation estimate `N = ceil(len(s)/4)` (the `+ 1` pays
for the newline placed after the marker); and whenever `len(s) ≤ cap` the
output is `s` unchanged with no token count. -/
theorem truncation_budget (s : List Nat) (cap : Nat) :
    (truncate_middle s cap).1.length ≤
      max cap (markerBytes ((s.length + 3) / 4)).length + 1 ∧
    (s.length ≤ cap → truncate_middle s cap = (s, none)) := by
  constructor
  · unfold truncate_middle
    by_cases h1 : s.length ≤ cap
    · rw [if_pos h1]
      have := Nat.le_max_left cap (markerBytes ((s.length + 3) / 4)).length
      dsimp only
      omega
    · rw [if_neg h1]
      by_cases h0 : cap = 0
      · rw [if_pos h0]
        have := Nat.le_max_right cap (markerBytes ((s.length + 3) / 4)).length
        dsimp only
        omega
      · rw [if_neg h0]
        have hl := truncLoop_length s cap ((s.length + 3) / 4) 4 ((s.length + 3) / 4)
        have hx : max (cap + 1) (markerBytes ((s.length + 3) / 4)).length ≤
            max cap (markerBytes ((s.length + 3) / 4)).length + 1 := by
          have ha := Nat.le_max_left cap (markerBytes ((s.length + 3) / 4)).length
          have hb := Nat.le_max_right cap (markerBytes ((s.length + 3) / 4)).length
          exact Nat.max_le.mpr ⟨by omega, by omega⟩
        exact le_trans hl hx
  · intro h1
    unfold truncate_middle
    rw [if_pos h1]

/-- Witness for C1 at a concrete input. -/
theorem truncation_budget_witness :
    truncate_middle (asciiBytes "hi") 10 = (asciiBytes "hi", none) ∧
    (truncate_middle (asciiBytes "hi") 10).1.length ≤
      max 10 (markerBytes (((asciiBytes "hi").length + 3) / 4)).length + 1 :=
  ⟨(truncation_budget (asciiBytes "hi") 10).2 (by decide),
   (truncation_budget (asciiBytes "hi") 10).1⟩

/-! ## Claim C6: truncation elides only a contiguous middle -/

/-- C6 counterexample: with 10 bytes of `a` and cap 5 the cap cannot fit any
content, so the result is the bare marker `…3 tokens truncated…` with no
newline byte at all — it does not decompose as `P ++ marker ++ "\n" ++ S`. -/
theorem truncation_fidelity_counterexample :
    5 < (List.replicate 10 97 : List Nat).length ∧
    (truncate_middle (List.replicate 10 97) 5).1 = markerBytes 3 ∧
    ¬ ∃ (p q : List Nat) (n : Nat),
        (truncate_middle (List.replicate 10 97) 5).1 =
          p ++ markerBytes n ++ [10] ++ q := by
  refine ⟨by decide, by decide, ?_⟩
  rintro ⟨p, q, n, heq⟩
  have h10 : (10 : Nat) ∈ (truncate_middle (List.replicate 10 97) 5).1 := by
    rw [heq]
    simp
  rw [show (truncate_middle (List.replicate 10 97) 5).1 = markerBytes 3 from by decide] at h10
  exact absurd h10 (by decide)

/-- C6 (amended): when `len(s) > cap`, the result of `truncate_middle` either
decomposes as `P ++ marker ++ "\n" ++ S` where `P = s.take pe` is a prefix of
`s` and `S = s.drop ss` is a suffix of `s` (so only a contiguous middle is
elided), or — when the cap leaves no room for content — it is exactly the bare
marker for the full-truncation estimate. -/
theorem truncation_fidelity (s : List Nat) (cap : Nat) (h : cap < s.length) :
    (∃ pe ss, pe ≤ s.length ∧ ss ≤ s.length ∧ ∃ n,
        (truncate_middle s cap).1 =
          s.take pe ++ markerBytes n ++ [10] ++ s.drop ss) ∨
    (truncate_middle s cap).1 = markerBytes ((s.length + 3) / 4) := by
  unfold truncate_middle
  rw [if_neg (by omega : ¬ s.length ≤ cap)]
  by_cases h0 : cap = 0
  · rw [if_pos h0]
    right
    rfl
  · rw [if_neg h0]
    exact truncLoop_shape s cap ((s.length + 3) / 4) 4 ((s.length + 3) / 4)

/-- Witness for C6 at a concrete input. -/
theorem truncation_fidelity_witness :
    (∃ pe ss, pe ≤ (List.replicate 100 97 : List Nat).length ∧
        ss ≤ (List.replicate 100 97 : List Nat).length ∧ ∃ n,
        (truncate_middle (List.replicate 100 97) 50).1 =
          (List.replicate 100 97 : List Nat).take pe ++ markerBytes n ++ [10] ++
            (List.replicate 100 97 : List Nat).drop ss) ∨
    (truncate_middle (List.replicate 100 97) 50).1 =
      markerBytes (((List.replicate 100 97 : List Nat).length + 3) / 4) :=
  truncation_fidelity (List.replicate 100 97) 50 (by decide)

/-! ## Claim C8: write_stdin on an unknown session -/

/-- C8: when the session id is not in the map, `handle_write_stdin_request`
returns the unknown-session error, leaves the session map unchanged, and sends
no stdin bytes to any writer channel. -/
theorem write_stdin_unknown_session (sessions : List (Nat × ExecCommandSession))
    (params : WriteStdinParams) (collected : List Nat)
    (h : sessions.lookup params.session_id = none) :
    handle_write_stdin_request sessions params collected =
      (Except.error (str "unknown session id " ++ decDigitsChars params.session_id),
       sessions, []) := by
  unfold handle_write_stdin_request
  rw [h]

/-- Witness for C8 at a concrete input. -/
theorem write_stdin_unknown_session_witness :
    handle_write_stdin_request [] ⟨7, [97], 250, 10000⟩ [] =
      (Except.error (str "unknown session id " ++ decDigitsChars 7), [], []) :=
  write_stdin_unknown_session [] ⟨7, [97], 250, 10000⟩ [] (by decide)
